import Mathlib

/-!
Shallow embedding of the OpenAspen query-routing core
(`openaspen/core/node.py`, `leaf.py`, `branch.py`, `tree.py`).

Modelling conventions:
* Python exceptions are the `Except String` monad: `.error e` is a raised
  exception whose `str()` is `e`; `.ok` is a normal return.
* `float` scores are modelled as `ℚ` (every comparison appearing in the
  claims is exact, so rational arithmetic agrees with the float run).
* The retrieval store (`GroupRAGStore`) and the LLM access layer
  (`LLMRouter` / langchain chat models) are external collaborators of the
  routing core; they are modelled at the call boundary as records of
  functions whose `Except` results capture both normal returns and raises.
* The pydantic `id` (a random UUID) and `metadata` fields, and the
  `inspect`-based parameter-schema introspection of `Leaf`, are omitted:
  no modelled operation reads them and no claim mentions them.
* Python truthiness of strings and of `Optional[str]` (`None` and `""` are
  falsy) is modelled explicitly by `strTruthy` / `optStrTruthy`.
-/

namespace OpenAspen

/-- Model of a user-supplied callable skill: applying it to the input either
returns a value (`.ok`) or raises (`.error`, the stringified exception).
`doc` models `__doc__`, `is_async` models `asyncio.iscoroutinefunction`. -/
structure ToolFunc where
  fn : String → Except String String
  doc : Option String
  is_async : Bool

/-- Data carried by a `Leaf` node (`leaf.py`).  `parentPath` is the chain of
ancestor names root-first: it is the flattening of the `parent`
back-references that `TreeNode.get_path` walks. -/
structure LeafData where
  name : String
  description : String
  tool_func : Option ToolFunc
  llm_provider : Option String
  is_async : Bool
  parentPath : List String

/-- Python truthiness of a `str`: `""` is falsy. -/
def strTruthy (s : String) : Bool := s != ""

/-- Python truthiness of an `Optional[str]`: `None` and `""` are falsy. -/
def optStrTruthy : Option String → Bool
  | none => false
  | some s => strTruthy s

/-- Python `a or b` on strings. -/
def pyOrStr (a b : String) : String := if strTruthy a then a else b

/-- Python `a or b` on `Optional[str]` values. -/
def pyOrOpt (a b : Option String) : Option String := if optStrTruthy a then a else b

/-- Python `a or b` where `a : Optional[str]` and `b` is a string literal. -/
def pyOrDefault (a : Option String) (b : String) : String :=
  match a with
  | some s => if strTruthy s then s else b
  | none => b

/-- Rendering of an `Optional[str]` inside an f-string. -/
def pyStr : Option String → String
  | none => "None"
  | some s => s

/-- Translation of `Leaf.__init__` (leaf.py lines 17–31).  The `Except`
codomain mirrors that a Python constructor may raise; this body contains no
`raise`, so it always returns `.ok`.  When a callable is supplied the
description defaults to `description or tool_func.__doc__ or ""` and
`is_async` records `asyncio.iscoroutinefunction(tool_func)`. -/
def leafInit (name : String) (tool_func : Option ToolFunc) (description : String)
    (llm_provider : Option String) : Except String LeafData :=
  match tool_func with
  | none =>
      .ok { name := name, description := description, tool_func := none,
            llm_provider := llm_provider, is_async := false, parentPath := [] }
  | some tf =>
      .ok { name := name, description := pyOrStr description (tf.doc.getD ""),
            tool_func := some tf, llm_provider := llm_provider,
            is_async := tf.is_async, parentPath := [] }

/-- `TreeNode.get_path` (node.py lines 33–39) for a leaf: ancestor names
root-first, then the leaf's own name. -/
def LeafData.get_path (l : LeafData) : List String := l.parentPath ++ [l.name]

/-- The execution-result dictionaries produced by the routing core.  Each
constructor is one dict literal of the source, its fields named after the
dict keys (`success` is encoded by the constructor choice). -/
inductive ExecResult where
  | leafSuccess (result : String) (leaf : String) (path : String) : ExecResult
  | leafFailure (error : String) (leaf : String) (path : String) : ExecResult
  | branchSuccess (branch : String) (results : List ExecResult) : ExecResult
  | branchFailure (error : String) (branch : String) : ExecResult
  | treeFailure (error : String) (query : String) : ExecResult

/-- The `success` field of an execution-result dictionary. -/
def ExecResult.success : ExecResult → Bool
  | .leafSuccess _ _ _ => true
  | .branchSuccess _ _ => true
  | _ => false

/-- Translation of `Leaf.execute` (leaf.py lines 46–68): with no callable it
raises `ValueError`; otherwise the callable's exception is caught and
converted into a failure record, and a normal return into a success record.
(Keyword forwarding of extra options to the callable is absorbed into the
callable model `fn`; the claims never exercise it.) -/
def LeafData.execute (l : LeafData) (input_data : String) : Except String ExecResult :=
  match l.tool_func with
  | none => .error ("Leaf \x27" ++ l.name ++ "\x27 has no tool function defined")
  | some tf =>
      match tf.fn input_data with
      | .ok result => .ok (.leafSuccess result l.name (String.intercalate "/" l.get_path))
      | .error e => .ok (.leafFailure e l.name (String.intercalate "/" l.get_path))

mutual

/-- A node of the tree: either a `Leaf` or a `Branch` (node.py / branch.py). -/
inductive TreeNode where
  | leaf : LeafData → TreeNode
  | branch : BranchData → TreeNode

/-- Data carried by a `Branch` node (branch.py): name, description,
llm-provider hint, system prompt, ordered children, and the flattened parent
chain (see `LeafData.parentPath`).  The pydantic fields `temperature` and
`max_tokens` always hold their class defaults `0.7` / `2000` (no modelled
constructor overrides them) and appear only in `to_dict`. -/
inductive BranchData where
  | mk (name description : String) (llm_provider : Option String)
      (system_prompt : String) (children : List TreeNode)
      (parentPath : List String) : BranchData

end

def BranchData.name : BranchData → String
  | .mk n _ _ _ _ _ => n

def BranchData.description : BranchData → String
  | .mk _ d _ _ _ _ => d

def BranchData.llm_provider : BranchData → Option String
  | .mk _ _ p _ _ _ => p

def BranchData.system_prompt : BranchData → String
  | .mk _ _ _ sp _ _ => sp

def BranchData.children : BranchData → List TreeNode
  | .mk _ _ _ _ cs _ => cs

def BranchData.parentPath : BranchData → List String
  | .mk _ _ _ _ _ pp => pp

/-- `TreeNode.get_path` for a branch. -/
def BranchData.get_path (b : BranchData) : List String := b.parentPath ++ [b.name]

/-- `Branch.get_leaves` (branch.py lines 48–49): children that are leaves. -/
def BranchData.get_leaves (b : BranchData) : List LeafData :=
  b.children.filterMap (fun c =>
    match c with
    | .leaf l => some l
    | .branch _ => none)

/-- A retrieval hit's metadata, as read by the routing core:
`metadata.get("branch")` and `metadata.get("leaf_name")`. -/
structure SearchDoc where
  branch : Option String
  leaf_name : Option String
  deriving DecidableEq

/-- The retrieval store (`GroupRAGStore`) at the external-collaborator
boundary.  `similarity_search_with_score query k` models the tree-level
scored search; `similarity_search query k branchFilter` models the
branch-filtered search; `index_leaf leaf branchName` models indexing.
`.error` means the call raised. -/
structure RagDb where
  similarity_search_with_score : String → Nat → Except String (List (SearchDoc × ℚ))
  similarity_search : String → Nat → String → Except String (List SearchDoc)
  index_leaf : LeafData → String → Except String Unit

/-- The `{tool, input}` decision dictionary obtained from the LLM response:
`tool` is `decision.get("tool")`, `input` is `decision.get("input")`. -/
structure Decision where
  tool : Option String
  input : Option String

/-- An invokable chat model at the boundary: `invoke_and_parse prompt`
models `llm.ainvoke(prompt)` followed by `json.loads` of the response
content and dictionary access; `.error` covers a raise anywhere in that
pipeline (network failure, unparseable response, non-dict JSON). -/
structure LLM where
  invoke_and_parse : String → Except String Decision

/-- The LLM access layer: `get_llm provider` resolves a provider name to an
invokable model, raising (`.error`) when no provider can be resolved
(router.py lines 71–78). -/
structure LLMRouter where
  get_llm : String → Except String LLM

/-- `Branch._find_relevant_leaves` (branch.py lines 74–87): retrieval
restricted to this branch; on a raise from the store, fall back to the
first `top_k` leaves. -/
def find_relevant_leaves (b : BranchData) (query : String) (rag_db : RagDb)
    (top_k : Nat) : List LeafData :=
  let leaves := b.get_leaves
  if leaves.isEmpty then []
  else
    match rag_db.similarity_search query top_k b.name with
    | .ok results =>
        let relevant_leaf_names := results.map (fun doc => doc.leaf_name)
        leaves.filter (fun leaf => relevant_leaf_names.contains (some leaf.name))
    | .error _ => leaves.take top_k

/-- The bullet list of shortlisted tools (branch.py lines 98–100). -/
def tools_description (relevant_leaves : List LeafData) : String :=
  String.intercalate "\n"
    (relevant_leaves.map (fun leaf => "- " ++ leaf.name ++ ": " ++ leaf.description))

/-- The arbitration prompt (branch.py lines 102–112). -/
def arbitration_prompt (b : BranchData) (tools input_data : String) : String :=
  "You are an AI agent in the " ++ b.name ++ " branch.\n" ++ b.system_prompt ++
  "\n\nAvailable tools:\n" ++ tools ++ "\n\nUser query: " ++ input_data ++
  "\n\nSelect the most appropriate tool and provide the input for it.\n" ++
  "Respond in JSON format: \x7b\"tool\": \"tool_name\", \"input\": \"tool_input\"\x7d\n"

/-- The `except` handler of `_execute_with_llm` (branch.py lines 132–136):
fall back to the first shortlisted leaf (whose own raise, if any,
propagates), or report the caught exception when the shortlist is empty. -/
def llm_fallback (b : BranchData) (input_data : String)
    (relevant_leaves : List LeafData) (e : String) : Except String ExecResult :=
  match relevant_leaves with
  | leaf :: _ => leaf.execute input_data
  | [] => .ok (.branchFailure e b.name)

/-- `Branch._execute_with_llm` (branch.py lines 89–136).  `get_llm` is
awaited before the `try` block, so its raise propagates; inside the `try`,
an unparseable response and a raise from the selected leaf are caught and
routed to the fallback, while a parsed decision naming an out-of-shortlist
tool returns a `Tool ... not found` failure dictionary. -/
def execute_with_llm (b : BranchData) (input_data : String)
    (relevant_leaves : List LeafData) (llm_router : LLMRouter) :
    Except String ExecResult :=
  match llm_router.get_llm (pyOrDefault b.llm_provider "openai") with
  | .error e => .error e
  | .ok llm =>
      let prompt := arbitration_prompt b (tools_description relevant_leaves) input_data
      match llm.invoke_and_parse prompt with
      | .ok decision =>
          match relevant_leaves.find? (fun leaf => decision.tool == some leaf.name) with
          | some selected_leaf =>
              match selected_leaf.execute (decision.input.getD input_data) with
              | .ok r => .ok r
              | .error e => llm_fallback b input_data relevant_leaves e
          | none =>
              .ok (.branchFailure ("Tool " ++ pyStr decision.tool ++ " not found") b.name)
      | .error e => llm_fallback b input_data relevant_leaves e

mutual

/-- Dynamic dispatch of `execute` over a child node. -/
def TreeNode.execute (rag_db : Option RagDb) (llm_router : Option LLMRouter)
    (input_data : String) : TreeNode → Except String ExecResult
  | .leaf l => l.execute input_data
  | .branch b => BranchData.execute rag_db llm_router input_data b

/-- `Branch.execute` (branch.py lines 54–72): with both context handles and
a non-empty shortlist, arbitrate via the LLM; otherwise fan out over all
children (a child's raise propagates uncaught), or report `No children to
execute` when there are none. -/
def BranchData.execute (rag_db : Option RagDb) (llm_router : Option LLMRouter)
    (input_data : String) : BranchData → Except String ExecResult
  | .mk nm ds lp sp children pp =>
      let b := BranchData.mk nm ds lp sp children pp
      let viaLlm : Option (Except String ExecResult) :=
        match rag_db, llm_router with
        | some rag, some router =>
            let relevant_leaves := find_relevant_leaves b input_data rag 3
            if relevant_leaves.isEmpty then none
            else some (execute_with_llm b input_data relevant_leaves router)
        | _, _ => none
      match viaLlm with
      | some r => r
      | none =>
          match children with
          | [] => .ok (.branchFailure "No children to execute" nm)
          | c :: cs =>
              match execChildren rag_db llm_router input_data (c :: cs) with
              | .ok results => .ok (.branchSuccess nm results)
              | .error e => .error e

/-- The sequential fan-out loop of `Branch.execute` (branch.py lines
66–69): each child executes in list order; a raise aborts and propagates. -/
def execChildren (rag_db : Option RagDb) (llm_router : Option LLMRouter)
    (input_data : String) : List TreeNode → Except String (List ExecResult)
  | [] => .ok []
  | c :: cs =>
      match TreeNode.execute rag_db llm_router input_data c with
      | .error e => .error e
      | .ok r =>
          match execChildren rag_db llm_router input_data cs with
          | .error e => .error e
          | .ok rs => .ok (r :: rs)

end

/-- One update of the `branch_scores` dictionary (tree.py line 130):
`branch_scores[name] = branch_scores.get(name, 0) + score`.  The
association list preserves Python-dict insertion order: an existing key is
updated in place, a new key is appended. -/
def addScore : List (String × ℚ) → String → ℚ → List (String × ℚ)
  | [], name, score => [(name, score)]
  | (n, v) :: rest, name, score =>
      if n == name then (n, v + score) :: rest
      else (n, v) :: addScore rest name score

/-- The body of the aggregation loop of `_find_best_branch` (tree.py lines
127–130): a hit whose `metadata.get("branch")` is falsy (`None` or `""`)
is skipped, the rest accumulate their scores per branch name. -/
def scStep (branch_scores : List (String × ℚ)) (hit : SearchDoc × ℚ) :
    List (String × ℚ) :=
  match hit.1.branch with
  | some branch_name =>
      if strTruthy branch_name then addScore branch_scores branch_name hit.2
      else branch_scores
  | none => branch_scores

/-- The aggregation loop of `_find_best_branch` (tree.py lines 126–130). -/
def branchScores (results : List (SearchDoc × ℚ)) : List (String × ℚ) :=
  results.foldl scStep []

/-- One comparison of Python `max(items, key=lambda x: x[1])`: a later item
replaces the current best only when strictly greater. -/
def maxStep (best y : String × ℚ) : String × ℚ :=
  if y.2 > best.2 then y else best

/-- Python `max(items, key=lambda x: x[1])`: the first item whose score is
maximal, or `none` on an empty dict (Python would raise there; the source
guards with `if branch_scores:`). -/
def maxBySnd : List (String × ℚ) → Option (String × ℚ)
  | [] => none
  | x :: xs => some (xs.foldl maxStep x)

/-- One record of the tree's execution history (tree.py lines 99–103). -/
structure ExecRecord where
  query : String
  branch : String
  result : ExecResult

/-- The root aggregate (`OpenAspenTree`).  The shared retrieval store and
the LLM router, which the Python object holds as attributes, are passed to
the operations explicitly as the collaborator records `RagDb` /
`LLMRouter`. -/
structure Tree where
  name : String
  branches : List BranchData
  execution_history : List ExecRecord

/-- `OpenAspenTree.add_branch` (tree.py lines 40–55): constructs a Branch
(no parent link is set — the tree is not a `TreeNode`) and appends it. -/
def Tree.add_branch (t : Tree) (name description : String)
    (llm_provider : Option String) (system_prompt : String) : Tree × BranchData :=
  let branch := BranchData.mk name description llm_provider system_prompt [] []
  ({ t with branches := t.branches ++ [branch] }, branch)

/-- `Branch.add_leaf` (branch.py lines 32–46): the leaf's provider is
`llm_provider or self.llm_provider` (Python truthiness), and `add_child`
sets the leaf's parent to the branch, here flattened into `parentPath`. -/
def BranchData.add_leaf (b : BranchData) (name : String) (tool_func : ToolFunc)
    (description : String) (llm_provider : Option String) :
    Except String (BranchData × LeafData) :=
  match leafInit name (some tool_func) description (pyOrOpt llm_provider b.llm_provider) with
  | .error e => .error e
  | .ok leaf0 =>
      let leaf := { leaf0 with parentPath := b.get_path }
      .ok (BranchData.mk b.name b.description b.llm_provider b.system_prompt
             (b.children ++ [.leaf leaf]) b.parentPath, leaf)

/-- `OpenAspenTree.spawn_leaf` (tree.py lines 60–71): delegates leaf
creation to `Branch.add_leaf`, then indexes the new leaf in the shared
retrieval store (whose raise propagates).  The Python method mutates the
branch in place; the updated branch is returned alongside the leaf. -/
def spawn_leaf (rag : RagDb) (branch : BranchData) (skill_name : String)
    (tool_func : ToolFunc) (description : String) (llm_provider : Option String) :
    Except String (BranchData × LeafData) :=
  match branch.add_leaf skill_name tool_func description llm_provider with
  | .error e => .error e
  | .ok (branch2, leaf) =>
      match rag.index_leaf leaf branch.name with
      | .error e => .error e
      | .ok _ => .ok (branch2, leaf)

/-- `OpenAspenTree._find_best_branch` (tree.py lines 116–139): no branch on
an empty tree; the sole branch without any retrieval call; otherwise
aggregate the top-5 scored hits per branch name — on a raise from the
store, or when no hit is attributable to a branch name, fall back to the
first branch; when scores exist, look the best-scoring name up among the
branches (`none` when no branch carries that name). -/
def Tree.find_best_branch (t : Tree) (rag : RagDb) (query : String) :
    Option BranchData :=
  match t.branches with
  | [] => none
  | b0 :: rest =>
      if rest.isEmpty then some b0
      else
        match rag.similarity_search_with_score query 5 with
        | .error _ => some b0
        | .ok results =>
            let branch_scores := branchScores results
            match maxBySnd branch_scores with
            | some best => t.branches.find? (fun b => b.name == best.1)
            | none => some b0

/-- `OpenAspenTree.execute` (tree.py lines 79–114): route to the best
branch (error result when none), delegate with both context handles,
append one history record on a normal return, and convert any raise
escaping the pipeline into a `{success: False, error, query}` result. -/
def Tree.execute (t : Tree) (rag : RagDb) (router : LLMRouter) (query : String) :
    ExecResult × Tree :=
  match t.find_best_branch rag query with
  | none => (.treeFailure "No suitable branch found" query, t)
  | some best_branch =>
      match BranchData.execute (some rag) (some router) query best_branch with
      | .ok result =>
          (result,
           { t with execution_history :=
               t.execution_history ++ [⟨query, best_branch.name, result⟩] })
      | .error e => (.treeFailure e query, t)

/-- The nested dictionary produced by `TreeNode.to_dict` (node.py lines
60–68) plus the subclass extensions (leaf.py 83–92, branch.py 138–148).
The random `id`, the `metadata` map, and the leaf's introspected
`parameters` are omitted (see the module conventions); `temperature` and
`max_tokens` always hold the class defaults. -/
inductive NodeDict where
  | leafD (name : String) (llm_provider : Option String)
      (children : List NodeDict) (description : String) (is_async : Bool) : NodeDict
  | branchD (name : String) (llm_provider : Option String)
      (children : List NodeDict) (description system_prompt : String)
      (temperature : ℚ) (max_tokens : Nat) : NodeDict

mutual

/-- `to_dict` of a child node (leaves never have children via the modelled
API, so a leaf's `children` entry is `[]`). -/
def TreeNode.to_dict : TreeNode → NodeDict
  | .leaf l => .leafD l.name l.llm_provider [] l.description l.is_async
  | .branch b => BranchData.to_dict b

/-- `Branch.to_dict` (branch.py lines 138–148). -/
def BranchData.to_dict : BranchData → NodeDict
  | .mk nm ds lp sp children _ =>
      .branchD nm lp (childDicts children) ds sp (7 / 10) 2000

/-- The recursive `children` list of `TreeNode.to_dict`. -/
def childDicts : List TreeNode → List NodeDict
  | [] => []
  | c :: cs => c.to_dict :: childDicts cs

end

/-- Dictionary access `data["name"]`. -/
def NodeDict.nameD : NodeDict → String
  | .leafD n _ _ _ _ => n
  | .branchD n _ _ _ _ _ _ => n

/-- Dictionary access `data.get("description", "")`. -/
def NodeDict.descriptionD : NodeDict → String
  | .leafD _ _ _ d _ => d
  | .branchD _ _ _ d _ _ _ => d

/-- Dictionary access `data.get("llm_provider")`. -/
def NodeDict.llm_providerD : NodeDict → Option String
  | .leafD _ p _ _ _ => p
  | .branchD _ p _ _ _ _ _ => p

/-- Dictionary access `data.get("system_prompt", "")` (a leaf dictionary
has no such key, so the default applies). -/
def NodeDict.system_promptD : NodeDict → String
  | .leafD _ _ _ _ _ => ""
  | .branchD _ _ _ _ sp _ _ => sp

/-- The top-level dictionary of `OpenAspenTree.to_dict` (tree.py lines
158–164).  `rag_stats`, an opaque statistics blob ignored by `from_dict`,
is omitted. -/
structure TreeDict where
  name : String
  branches : List NodeDict
  llm_providers : List String

/-- `OpenAspenTree.to_dict`; `available_providers` stands for
`self.llm_router.get_available_providers()`. -/
def Tree.to_dict (t : Tree) (available_providers : List String) : TreeDict :=
  { name := t.name,
    branches := t.branches.map BranchData.to_dict,
    llm_providers := available_providers }

/-- `OpenAspenTree.from_dict` (tree.py lines 171–183): a fresh tree named
after the dictionary (the `"OpenAspenTree"` default applies only when the
key is absent, which the dictionary type rules out), then one `add_branch`
per serialized branch, reading `name`, `description`, `llm_provider`, and
`system_prompt`.  Children are not rehydrated. -/
def Tree.from_dict (d : TreeDict) : Tree :=
  let t0 : Tree := { name := d.name, branches := [], execution_history := [] }
  d.branches.foldl (fun t bd =>
    (t.add_branch bd.nameD bd.descriptionD bd.llm_providerD bd.system_promptD).1) t0

/-!
Specification-side vocabulary used by the theorems below.
-/

/-- The branch name a retrieval hit is attributed to: `metadata.get("branch")`
when that value is truthy, nothing otherwise (tree.py lines 128–129). -/
def hitName (hit : SearchDoc × ℚ) : Option String :=
  match hit.1.branch with
  | some branch_name => if strTruthy branch_name then some branch_name else none
  | none => none

/-- All branch names the hits are attributed to (with multiplicity). -/
def attributedNames (hits : List (SearchDoc × ℚ)) : List String :=
  hits.filterMap hitName

/-- The total score attributed to branch name `m` by the hits. -/
def sumScores : List (SearchDoc × ℚ) → String → ℚ
  | [], _ => 0
  | hit :: rest, m => (if hitName hit = some m then hit.2 else 0) + sumScores rest m

/-- Lookup in a score association list (the Python dict access). -/
def scLookup : List (String × ℚ) → String → Option ℚ
  | [], _ => none
  | (n, v) :: rest, m => if n = m then some v else scLookup rest m

/-- The four `Branch` attributes that `OpenAspenTree.from_dict` rehydrates. -/
def branchSig (b : BranchData) : String × String × Option String × String :=
  (b.name, b.description, b.llm_provider, b.system_prompt)

/-!
Concrete fixtures used by counterexamples and witnesses.
-/

/-- A callable that succeeds, tagging its input. -/
def tfA : ToolFunc := ⟨fun s => .ok ("A:" ++ s), none, false⟩

/-- A callable that raises `ValueError("boom")`. -/
def tfBoom : ToolFunc := ⟨fun _ => .error "boom", none, false⟩

/-- A leaf named `alpha` under branch `b`, wrapping `tfA`. -/
def leafA : LeafData :=
  { name := "alpha", description := "dA", tool_func := some tfA,
    llm_provider := none, is_async := false, parentPath := ["b"] }

/-- A leaf whose callable raises. -/
def leafBoom : LeafData :=
  { name := "boom_leaf", description := "", tool_func := some tfBoom,
    llm_provider := none, is_async := false, parentPath := ["br"] }

/-- The leaf value produced by constructing a `Leaf` without a callable. -/
def leafNoTool : LeafData :=
  { name := "x", description := "", tool_func := none,
    llm_provider := none, is_async := false, parentPath := [] }

/-- A childless branch. -/
def brEmpty : BranchData := .mk "b" "" none "" [] []

/-- A branch with two leaf children, the second of which raises. -/
def brAB : BranchData := .mk "b" "" none "" [.leaf leafA, .leaf leafBoom] []

/-- A branch with provider hint `openai`. -/
def brProv : BranchData := .mk "b" "" (some "openai") "" [] []

/-- A retrieval store whose every call raises. -/
def ragBroken : RagDb :=
  ⟨fun _ _ => .error "store down", fun _ _ _ => .error "store down",
   fun _ _ => .error "store down"⟩

/-- A retrieval store that always indexes successfully and finds `alpha`. -/
def ragAlpha : RagDb :=
  ⟨fun _ _ => .ok [], fun _ _ _ => .ok [⟨none, some "alpha"⟩], fun _ _ => .ok ()⟩

/-- A router whose model always answers with the parsed decision
`{tool: "zeta", input: "in"}`. -/
def routerZeta : LLMRouter := ⟨fun _ => .ok ⟨fun _ => .ok ⟨some "zeta", some "in"⟩⟩⟩

/-- A router whose model's response never parses as JSON. -/
def routerBadJson : LLMRouter := ⟨fun _ => .ok ⟨fun _ => .error "Expecting value"⟩⟩

/-!
Claim theorems.
-/

/-- C3, counterexample: constructing a `Leaf` without a callable does NOT
raise — `Leaf.__init__` returns a normal leaf value — and the
missing-callable `ValueError` is raised only when `execute` is invoked.
This refutes the claim that the error is raised immediately at
construction time. -/
theorem leaf_construction_cex :
    leafInit "x" none "" none = .ok leafNoTool ∧
    leafNoTool.execute "q" = .error "Leaf \x27x\x27 has no tool function defined" :=
  ⟨rfl, rfl⟩

/-- C3, amended: building a `Leaf` without a callable succeeds at
construction time (the constructor never raises); the missing-callable
usage error is raised when `execute` is invoked — raised as an exception,
never returned as a failure record — which keeps it distinct from an
execution-time failure of the callable (returned as a failure record,
`leaf_execute_catches`). -/
theorem leaf_missing_callable_raises_at_execute
    (name description : String) (llm_provider : Option String)
    (l : LeafData) (input_data : String) (hl : l.tool_func = none) :
    (leafInit name none description llm_provider).isOk = true ∧
    l.execute input_data =
      .error ("Leaf \x27" ++ l.name ++ "\x27 has no tool function defined") ∧
    ∀ r, l.execute input_data ≠ .ok r := by
  refine ⟨rfl, ?_, ?_⟩
  · simp [LeafData.execute, hl]
  · intro r
    simp [LeafData.execute, hl]

/-- Witness for `leaf_missing_callable_raises_at_execute` at the concrete
callable-less leaf `leafNoTool`. -/
theorem leaf_missing_callable_raises_at_execute_witness :
    leafNoTool.tool_func = none ∧
    leafNoTool.execute "q" = .error "Leaf \x27x\x27 has no tool function defined" :=
  ⟨rfl, (leaf_missing_callable_raises_at_execute "x" "" none leafNoTool "q" rfl).2.1⟩

/-- C4: for every leaf with a callable, an exception raised by the callable
is caught and converted into the failure record
`{success: False, error: str(e), leaf: name, path: "/".join(get_path())}`,
never re-raised to the caller. -/
theorem leaf_execute_catches (l : LeafData) (tf : ToolFunc) (e input_data : String)
    (htf : l.tool_func = some tf) (hraise : tf.fn input_data = .error e) :
    l.execute input_data =
      .ok (.leafFailure e l.name (String.intercalate "/" l.get_path)) := by
  simp [LeafData.execute, htf, hraise]

/-- Witness for `leaf_execute_catches`: a callable raising
`ValueError("boom")` yields a well-formed failure record with error
`"boom"` and the leaf's root-first path. -/
theorem leaf_execute_catches_witness :
    leafBoom.tool_func = some tfBoom ∧ tfBoom.fn "any input" = .error "boom" ∧
    leafBoom.execute "any input" = .ok (.leafFailure "boom" "boom_leaf" "br/boom_leaf") :=
  ⟨rfl, rfl, leaf_execute_catches leafBoom tfBoom "boom" "any input" rfl rfl⟩

/-- C7: a tree with exactly one branch always routes to it, for every
retrieval store (broken or not — the store is never consulted on this
path) and every query; `Tree.execute` then delegates to that branch and
returns its result. -/
theorem single_branch_always_routed (t : Tree) (rag : RagDb) (router : LLMRouter)
    (query : String) (b : BranchData) (hb : t.branches = [b]) :
    t.find_best_branch rag query = some b ∧
    ∀ r, BranchData.execute (some rag) (some router) query b = .ok r →
      (t.execute rag router query).1 = r := by
  have hfind : t.find_best_branch rag query = some b := by
    simp [Tree.find_best_branch, hb]
  refine ⟨hfind, ?_⟩
  intro r hr
  simp [Tree.execute, hfind, hr]

/-- Witness for `single_branch_always_routed`: a one-branch tree with a
retrieval store whose every call raises still routes to its sole branch. -/
theorem single_branch_always_routed_witness :
    ({ name := "T", branches := [brEmpty], execution_history := [] } :
        Tree).find_best_branch ragBroken "anything" = some brEmpty :=
  (single_branch_always_routed _ ragBroken routerZeta "anything" brEmpty rfl).1

/-- C10, counterexample: supplying the non-`None` provider `""` to
`add_leaf` on a branch whose provider is `openai` yields a leaf whose
provider is `openai`, not `""` — `llm_provider or self.llm_provider` uses
Python truthiness, so the empty string is replaced by the branch's
provider.  This refutes the claim that every non-`None` supplied provider
is taken verbatim. -/
theorem leaf_provider_truthiness_cex :
    (brProv.add_leaf "skill" tfA "" (some "")).map (fun p => p.2.llm_provider) =
      .ok (some "openai") ∧
    some "openai" ≠ (some "" : Option String) :=
  ⟨rfl, by decide⟩

/-- C10, amended: the leaf created by `Branch.add_leaf` (and by
`Tree.spawn_leaf`, which delegates to it) carries the supplied provider
exactly when that provider is truthy (non-`None` and non-empty), and the
parent branch's provider when the supplied one is `None` or `""`. -/
theorem leaf_provider_inheritance (b : BranchData) (name : String) (tf : ToolFunc)
    (description : String) (prov : Option String) (rag : RagDb)
    (hidx : ∀ l bn, rag.index_leaf l bn = .ok ()) :
    (b.add_leaf name tf description prov).map (fun p => p.2.llm_provider) =
      .ok (if optStrTruthy prov then prov else b.llm_provider) ∧
    spawn_leaf rag b name tf description prov = b.add_leaf name tf description prov := by
  constructor
  · simp [BranchData.add_leaf, leafInit, pyOrOpt, Except.map]
  · simp [spawn_leaf, BranchData.add_leaf, leafInit, hidx]

/-- Witness for `leaf_provider_inheritance`: a truthy supplied provider
(`grok`) is taken verbatim; an absent provider inherits the branch's
(`openai`). -/
theorem leaf_provider_inheritance_witness :
    (brProv.add_leaf "skill" tfA "" (some "grok")).map (fun p => p.2.llm_provider) =
      .ok (some "grok") ∧
    (brProv.add_leaf "skill" tfA "" none).map (fun p => p.2.llm_provider) =
      .ok (some "openai") :=
  ⟨(leaf_provider_inheritance brProv "skill" tfA "" (some "grok") ragAlpha
      (fun _ _ => rfl)).1,
   (leaf_provider_inheritance brProv "skill" tfA "" none ragAlpha
      (fun _ _ => rfl)).1⟩

/-- A branch holding the single leaf `alpha`. -/
def brC1 : BranchData := .mk "b" "" none "" [.leaf leafA] []

/-- A branch holding a single callable-less leaf. -/
def brXLeaf : BranchData := .mk "bx" "" none "" [.leaf leafNoTool] []

/-- A tree with the single childless branch `brEmpty`. -/
def treeOne : Tree := { name := "T", branches := [brEmpty], execution_history := [] }

/-- A tree with two branches, `brEmpty` first. -/
def treeTwo : Tree := { name := "T", branches := [brEmpty, brProv], execution_history := [] }

/-- A tree with the single branch `brXLeaf`. -/
def treeX : Tree := { name := "T", branches := [brXLeaf], execution_history := [] }

/-- Unfolding of `Branch.execute` on the LLM-arbitration path: with both
context handles and a non-empty shortlist, execution is delegated to
`_execute_with_llm`. -/
theorem branch_execute_llm_path (rag : RagDb) (router : LLMRouter)
    (input_data : String) (b : BranchData) (l : LeafData) (rest : List LeafData)
    (hrel : find_relevant_leaves b input_data rag 3 = l :: rest) :
    BranchData.execute (some rag) (some router) input_data b =
      execute_with_llm b input_data (l :: rest) router := by
  obtain ⟨nm, ds, lp, sp, cs, pp⟩ := b
  rw [BranchData.execute.eq_def]
  simp [hrel]

/-- Unfolding of `Branch.execute` when at least one context handle is
missing: the LLM-arbitration path is skipped and the branch fans out
(or reports the absence of children). -/
theorem branch_execute_no_ctx (rag_db : Option RagDb) (llm_router : Option LLMRouter)
    (input_data : String) (b : BranchData)
    (hctx : rag_db = none ∨ llm_router = none) :
    BranchData.execute rag_db llm_router input_data b =
      (match b.children with
       | [] => Except.ok (.branchFailure "No children to execute" b.name)
       | c :: cs =>
          match execChildren rag_db llm_router input_data (c :: cs) with
          | .ok results => .ok (.branchSuccess b.name results)
          | .error e => .error e) := by
  obtain ⟨nm, ds, lp, sp, cs, pp⟩ := b
  rw [BranchData.execute.eq_def]
  rcases hctx with h | h
  · subst h
    simp [BranchData.children, BranchData.name]
  · subst h
    cases rag_db <;> simp [BranchData.children, BranchData.name]

/-- C1, counterexample: with a shortlist of one leaf (`alpha`) and a
parsed LLM decision naming the out-of-shortlist tool `zeta`,
`Branch.execute` returns the hard error result
`{success: False, error: "Tool zeta not found", branch: "b"}` — it does
NOT fail over to invoking the first shortlisted leaf.  This refutes the
claim that the out-of-shortlist case degrades to the first leaf. -/
theorem llm_out_of_shortlist_cex :
    BranchData.execute (some ragAlpha) (some routerZeta) "q" brC1 =
      .ok (.branchFailure "Tool zeta not found" "b") ∧
    (ExecResult.branchFailure "Tool zeta not found" "b").success = false ∧
    leafA.execute "q" = .ok (.leafSuccess "A:q" "alpha" "b/alpha") ∧
    ExecResult.branchFailure "Tool zeta not found" "b" ≠
      ExecResult.leafSuccess "A:q" "alpha" "b/alpha" :=
  ⟨rfl, rfl, rfl, fun h => ExecResult.noConfusion h⟩

/-- C1, amended: with both handles and a non-empty shortlist, only the
unparseable-response case fails over to invoking the first shortlisted
leaf with the original query (that leaf's own missing-callable raise, if
any, would propagate); a response that parses but names a tool outside the
shortlist instead yields the hard error result
`{success: False, error: "Tool <name> not found", branch: name}`. -/
theorem llm_arbitration_degradation
    (b : BranchData) (input_data : String) (rag : RagDb) (router : LLMRouter)
    (llm : LLM) (l : LeafData) (rest : List LeafData)
    (hrel : find_relevant_leaves b input_data rag 3 = l :: rest)
    (hget : router.get_llm (pyOrDefault b.llm_provider "openai") = .ok llm) :
    (∀ e, llm.invoke_and_parse
        (arbitration_prompt b (tools_description (l :: rest)) input_data) = .error e →
      BranchData.execute (some rag) (some router) input_data b = l.execute input_data) ∧
    (∀ d, llm.invoke_and_parse
        (arbitration_prompt b (tools_description (l :: rest)) input_data) = .ok d →
      (∀ leaf ∈ l :: rest, d.tool ≠ some leaf.name) →
      BranchData.execute (some rag) (some router) input_data b =
        .ok (.branchFailure ("Tool " ++ pyStr d.tool ++ " not found") b.name)) := by
  have hexec := branch_execute_llm_path rag router input_data b l rest hrel
  constructor
  · intro e he
    rw [hexec]
    simp [execute_with_llm, hget, he, llm_fallback]
  · intro d hd hne
    rw [hexec]
    have hfind : (l :: rest).find? (fun leaf => d.tool == some leaf.name) = none := by
      rw [List.find?_eq_none]
      intro leaf hmem
      simpa using hne leaf hmem
    simp [execute_with_llm, hget, hd, hfind]

/-- Witness for `llm_arbitration_degradation`: an unparseable response
against the one-leaf shortlist of `brC1` degrades to executing `alpha`
with the original query. -/
theorem llm_arbitration_degradation_witness :
    find_relevant_leaves brC1 "q" ragAlpha 3 = [leafA] ∧
    BranchData.execute (some ragAlpha) (some routerBadJson) "q" brC1 =
      leafA.execute "q" :=
  ⟨rfl,
   (llm_arbitration_degradation brC1 "q" ragAlpha routerBadJson
      ⟨fun _ => .error "Expecting value"⟩ leafA [] rfl rfl).1 "Expecting value" rfl⟩

/-- Sequential fan-out is exactly a monadic map of `execute` over the
children, in list order, in the exception monad. -/
theorem execChildren_eq_mapM (rag_db : Option RagDb) (llm_router : Option LLMRouter)
    (input_data : String) (cs : List TreeNode) :
    execChildren rag_db llm_router input_data cs =
      cs.mapM (TreeNode.execute rag_db llm_router input_data) := by
  induction cs with
  | nil => rfl
  | cons c cs ih =>
      rw [List.mapM_cons, ← ih]
      cases hr : TreeNode.execute rag_db llm_router input_data c with
      | error e => simp [execChildren, hr, Bind.bind, Except.bind]
      | ok r =>
          cases hrs : execChildren rag_db llm_router input_data cs with
          | error e => simp [execChildren, hr, hrs, Bind.bind, Except.bind]
          | ok rs => simp [execChildren, hr, hrs, Bind.bind, Except.bind, Pure.pure, Except.pure]

/-- C6, counterexample: the no-children error string produced by
`Branch.execute` is `"No children to execute"` (capital `N`), not the
claimed `"no children to execute"`. -/
theorem fanout_error_string_cex :
    BranchData.execute none none "q" brEmpty =
      .ok (.branchFailure "No children to execute" "b") ∧
    "No children to execute" ≠ "no children to execute" :=
  ⟨rfl, by decide⟩

/-- C6, amended: without retrieval/LLM context, a branch with children
fans out — every child executes sequentially in child-list order on the
query (a monadic map), and when every child returns, all results are
collected into `{success: True, branch: name, results: [...]}` regardless
of individual child outcomes (failure records ride inside the list; only a
child that raises, i.e. a callable-less leaf, propagates).  A branch with
no children returns
`{success: False, error: "No children to execute", branch: name}`. -/
theorem branch_fanout (rag_db : Option RagDb) (llm_router : Option LLMRouter)
    (input_data : String) (b : BranchData)
    (hctx : rag_db = none ∨ llm_router = none) :
    (b.children = [] → BranchData.execute rag_db llm_router input_data b =
       .ok (.branchFailure "No children to execute" b.name)) ∧
    (∀ rs, execChildren rag_db llm_router input_data b.children = .ok rs →
       b.children ≠ [] →
       BranchData.execute rag_db llm_router input_data b =
         .ok (.branchSuccess b.name rs)) ∧
    execChildren rag_db llm_router input_data b.children =
      b.children.mapM (TreeNode.execute rag_db llm_router input_data) := by
  have hexec := branch_execute_no_ctx rag_db llm_router input_data b hctx
  refine ⟨?_, ?_, execChildren_eq_mapM _ _ _ _⟩
  · intro hcs
    rw [hexec, hcs]
  · intro rs hrs hne
    rw [hexec]
    cases hcs : b.children with
    | nil => exact absurd hcs hne
    | cons c cs' =>
        rw [hcs] at hrs
        simp [hrs]

/-- Witness for `branch_fanout`: the branch `brAB` with children
`[alpha, boom_leaf]` and no context returns a success record whose results
list holds `alpha`'s success record followed by `boom_leaf`'s embedded
failure record. -/
theorem branch_fanout_witness :
    BranchData.execute none none "x" brAB =
      .ok (.branchSuccess "b"
        [.leafSuccess "A:x" "alpha" "b/alpha",
         .leafFailure "boom" "boom_leaf" "br/boom_leaf"]) :=
  (branch_fanout none none "x" brAB (Or.inl rfl)).2.1 _ rfl
    (by simp [brAB, BranchData.children])

/-- Folding the aggregation step over hits none of which is attributable
to a branch name leaves the accumulator unchanged. -/
theorem foldl_scStep_of_none (hits : List (SearchDoc × ℚ)) (acc : List (String × ℚ))
    (h : ∀ hit ∈ hits, hitName hit = none) : hits.foldl scStep acc = acc := by
  induction hits generalizing acc with
  | nil => rfl
  | cons hit hits ih =>
      have h1 : hitName hit = none := h hit (List.mem_cons_self _ _)
      have hstep : scStep acc hit = acc := by
        unfold hitName at h1
        unfold scStep
        cases hbr : hit.1.branch with
        | none => rfl
        | some bn =>
            rw [hbr] at h1
            by_cases ht : strTruthy bn
            · simp [ht] at h1
            · simp [ht]
      rw [List.foldl_cons, hstep]
      exact ih acc (fun x hx => h x (List.mem_cons_of_mem _ hx))

/-- C2: in a tree with two or more branches, if the scored retrieval query
raises, or none of its hits is attributable to a branch name, branch
selection returns the first branch in insertion order — deterministically,
and never a selection failure. -/
theorem retrieval_fallback_first_branch (t : Tree) (rag : RagDb) (query : String)
    (b0 b1 : BranchData) (rest : List BranchData)
    (hb : t.branches = b0 :: b1 :: rest)
    (hfail : (∃ e, rag.similarity_search_with_score query 5 = .error e) ∨
      (∃ hits, rag.similarity_search_with_score query 5 = .ok hits ∧
        ∀ hit ∈ hits, hitName hit = none)) :
    t.find_best_branch rag query = some b0 := by
  rcases hfail with ⟨e, he⟩ | ⟨hits, hok, hnone⟩
  · simp [Tree.find_best_branch, hb, he]
  · have hbs : branchScores hits = [] := foldl_scStep_of_none hits [] hnone
    simp [Tree.find_best_branch, hb, hok, hbs, maxBySnd]

/-- Witness for `retrieval_fallback_first_branch`: a two-branch tree whose
retrieval store raises still selects the first branch. -/
theorem retrieval_fallback_first_branch_witness :
    treeTwo.find_best_branch ragBroken "q" = some brEmpty :=
  retrieval_fallback_first_branch treeTwo ragBroken "q" brEmpty brProv [] rfl
    (Or.inl ⟨"store down", rfl⟩)

/-- C9: `Tree.execute` appends exactly one `{query, branch, result}` record
to the execution history when a branch was selected and its execution
returned (even a returned failure record), and leaves the history
unchanged on the two error-returning paths: no branch selected, or an
exception caught at the top level. -/
theorem execution_history_discipline (t : Tree) (rag : RagDb) (router : LLMRouter)
    (query : String) :
    (t.find_best_branch rag query = none →
       t.execute rag router query = (.treeFailure "No suitable branch found" query, t)) ∧
    (∀ b r, t.find_best_branch rag query = some b →
       BranchData.execute (some rag) (some router) query b = .ok r →
       (t.execute rag router query).1 = r ∧
       (t.execute rag router query).2.execution_history =
         t.execution_history ++ [⟨query, b.name, r⟩]) ∧
    (∀ b e, t.find_best_branch rag query = some b →
       BranchData.execute (some rag) (some router) query b = .error e →
       t.execute rag router query = (.treeFailure e query, t)) := by
  refine ⟨?_, ?_, ?_⟩
  · intro h
    simp [Tree.execute, h]
  · intro b r hf hr
    simp [Tree.execute, hf, hr]
  · intro b e hf hr
    simp [Tree.execute, hf, hr]

/-- Witness for `execution_history_discipline`, covering its three paths:
a zero-branch tree returns the error result with history untouched; a
routed query appends exactly its one record; a top-level caught exception
(a callable-less leaf reached through the LLM-path fallback) returns the
converted error with history untouched. -/
theorem execution_history_discipline_witness :
    Tree.execute { name := "T", branches := [], execution_history := [] }
        ragBroken routerZeta "q" =
      (.treeFailure "No suitable branch found" "q",
       { name := "T", branches := [], execution_history := [] }) ∧
    (Tree.execute treeOne ragBroken routerZeta "q").2.execution_history =
      [⟨"q", "b", .branchFailure "No children to execute" "b"⟩] ∧
    Tree.execute treeX ragBroken routerBadJson "q" =
      (.treeFailure "Leaf \x27x\x27 has no tool function defined" "q", treeX) := by
  refine ⟨(execution_history_discipline _ ragBroken routerZeta "q").1 rfl, ?_,
    (execution_history_discipline treeX ragBroken routerBadJson "q").2.2 brXLeaf
      "Leaf \x27x\x27 has no tool function defined" rfl rfl⟩
  have h := (execution_history_discipline treeOne ragBroken routerZeta "q").2.1 brEmpty
    (.branchFailure "No children to execute" "b") rfl rfl
  simpa [treeOne] using h.2

/-- Folding `add_branch` over serialized branches preserves the tree name. -/
theorem from_dict_foldl_name (bds : List NodeDict) (t0 : Tree) :
    (bds.foldl (fun t bd =>
      (t.add_branch bd.nameD bd.descriptionD bd.llm_providerD bd.system_promptD).1)
      t0).name = t0.name := by
  induction bds generalizing t0 with
  | nil => rfl
  | cons bd bds ih =>
      rw [List.foldl_cons, ih]
      rfl

/-- Folding `add_branch` over serialized branches appends, in order, one
fresh childless branch per dictionary. -/
theorem from_dict_foldl_branches (bds : List NodeDict) (t0 : Tree) :
    (bds.foldl (fun t bd =>
      (t.add_branch bd.nameD bd.descriptionD bd.llm_providerD bd.system_promptD).1)
      t0).branches =
    t0.branches ++ bds.map (fun bd =>
      BranchData.mk bd.nameD bd.descriptionD bd.llm_providerD bd.system_promptD [] []) := by
  induction bds generalizing t0 with
  | nil => simp
  | cons bd bds ih =>
      rw [List.foldl_cons, ih]
      simp [Tree.add_branch]

/-- Rehydrating the serialized form of one branch restores its name,
description, provider, and system prompt. -/
theorem branchSig_round (b : BranchData) :
    branchSig (BranchData.mk (BranchData.to_dict b).nameD
      (BranchData.to_dict b).descriptionD (BranchData.to_dict b).llm_providerD
      (BranchData.to_dict b).system_promptD [] []) = branchSig b := by
  obtain ⟨nm, ds, lp, sp, cs, pp⟩ := b
  rw [BranchData.to_dict.eq_def]
  rfl

/-- Rehydrating every serialized branch of a list restores each branch's
signature, in order. -/
theorem map_round_branchSig (bs : List BranchData) :
    ((bs.map BranchData.to_dict).map (fun bd => BranchData.mk bd.nameD
      bd.descriptionD bd.llm_providerD bd.system_promptD [] [])).map branchSig =
    bs.map branchSig := by
  induction bs with
  | nil => rfl
  | cons b bs ih =>
      simp only [List.map_cons]
      rw [ih, branchSig_round b]

/-- C8: deserializing a tree's serialized form reconstructs a tree with
the same name and the same branch list in the same order, each branch
keeping its name, description, llm_provider, and system_prompt. -/
theorem serialization_round_trip (t : Tree) (providers : List String) :
    (Tree.from_dict (t.to_dict providers)).name = t.name ∧
    (Tree.from_dict (t.to_dict providers)).branches.map branchSig =
      t.branches.map branchSig := by
  constructor
  · simp only [Tree.from_dict, Tree.to_dict]
    rw [from_dict_foldl_name]
  · simp only [Tree.from_dict, Tree.to_dict]
    rw [from_dict_foldl_branches, List.nil_append]
    exact map_round_branchSig t.branches

/-!
Association-list lemmas for the branch-score aggregation of
`_find_best_branch`.
-/

/-- Updating a score dict leaves the looked-up value at the updated key as
the old value (default `0`) plus the added score. -/
theorem scLookup_addScore_self (sc : List (String × ℚ)) (n : String) (s : ℚ) :
    scLookup (addScore sc n s) n = some ((scLookup sc n).getD 0 + s) := by
  induction sc with
  | nil => simp [addScore, scLookup]
  | cons p rest ih =>
      obtain ⟨m, v⟩ := p
      by_cases h : m = n
      · subst h
        simp [addScore, scLookup]
      · simp [addScore, scLookup, h, ih]

/-- Updating a score dict does not change the value at any other key. -/
theorem scLookup_addScore_ne (sc : List (String × ℚ)) (n m : String) (s : ℚ)
    (h : m ≠ n) : scLookup (addScore sc n s) m = scLookup sc m := by
  have hnm : n ≠ m := Ne.symm h
  induction sc with
  | nil => simp [addScore, scLookup, hnm]
  | cons p rest ih =>
      obtain ⟨k, v⟩ := p
      by_cases hk : k = n
      · subst hk
        simp [addScore, scLookup, hnm]
      · simp [addScore, scLookup, hk, ih]

/-- A key is in the dict exactly when its lookup succeeds. -/
theorem scLookup_isSome_iff (sc : List (String × ℚ)) (m : String) :
    (scLookup sc m).isSome = true ↔ m ∈ sc.map Prod.fst := by
  induction sc with
  | nil => simp [scLookup]
  | cons p rest ih =>
      obtain ⟨k, v⟩ := p
      by_cases hk : k = m
      · subst hk
        simp [scLookup]
      · simp [scLookup, hk, ih, Ne.symm hk]

/-- Updating a score dict either keeps its key list (existing key) or
appends the new key at the end. -/
theorem addScore_fst (sc : List (String × ℚ)) (n : String) (s : ℚ) :
    (addScore sc n s).map Prod.fst =
      if (scLookup sc n).isSome = true then sc.map Prod.fst
      else sc.map Prod.fst ++ [n] := by
  induction sc with
  | nil => simp [addScore, scLookup]
  | cons p rest ih =>
      obtain ⟨k, v⟩ := p
      by_cases hk : k = n
      · subst hk
        simp [addScore, scLookup]
      · simp [addScore, scLookup, hk, ih]
        by_cases hs : (scLookup rest n).isSome = true <;> simp [hs]

/-- Updating a score dict preserves distinctness of its keys. -/
theorem addScore_nodup (sc : List (String × ℚ)) (n : String) (s : ℚ)
    (h : (sc.map Prod.fst).Nodup) : ((addScore sc n s).map Prod.fst).Nodup := by
  rw [addScore_fst]
  by_cases hs : (scLookup sc n).isSome = true
  · simp [hs, h]
  · have hn : n ∉ sc.map Prod.fst := by
      rw [← scLookup_isSome_iff]
      exact hs
    simp [hs, List.nodup_append, h, hn]

/-- A successful lookup exhibits dict membership. -/
theorem scLookup_mem (sc : List (String × ℚ)) (m : String) (v : ℚ)
    (h : scLookup sc m = some v) : (m, v) ∈ sc := by
  induction sc with
  | nil => simp [scLookup] at h
  | cons p rest ih =>
      obtain ⟨k, w⟩ := p
      by_cases hk : k = m
      · subst hk
        simp [scLookup] at h
        subst h
        exact List.mem_cons_self _ _
      · simp [scLookup, hk] at h
        exact List.mem_cons_of_mem _ (ih h)

/-- With distinct keys, membership determines the looked-up value. -/
theorem mem_scLookup_of_nodup (sc : List (String × ℚ)) (p : String × ℚ)
    (hnd : (sc.map Prod.fst).Nodup) (hp : p ∈ sc) : scLookup sc p.1 = some p.2 := by
  obtain ⟨a, v⟩ := p
  induction sc with
  | nil => cases hp
  | cons q rest ih =>
      obtain ⟨k, w⟩ := q
      rcases List.mem_cons.mp hp with heq | hmem
      · cases heq
        simp [scLookup]
      · have hk : k ≠ a := by
          intro hk
          subst hk
          exact (List.nodup_cons.mp hnd).1 (List.mem_map.mpr ⟨(k, v), hmem, rfl⟩)
        simp [scLookup, hk]
        exact ih (List.nodup_cons.mp hnd).2 hmem

/-- The aggregation loop body, rewritten through `hitName`. -/
theorem scStep_eq (sc : List (String × ℚ)) (hit : SearchDoc × ℚ) :
    scStep sc hit =
      match hitName hit with
      | some n => addScore sc n hit.2
      | none => sc := by
  unfold scStep hitName
  cases hit.1.branch with
  | none => rfl
  | some bn => by_cases ht : strTruthy bn <;> simp [ht]

/-- Membership in the attributed names of a consed hit list. -/
theorem mem_attributedNames_cons (hit : SearchDoc × ℚ) (hits : List (SearchDoc × ℚ))
    (m : String) :
    m ∈ attributedNames (hit :: hits) ↔
      (hitName hit = some m ∨ m ∈ attributedNames hits) := by
  cases hn : hitName hit with
  | none => simp [attributedNames, List.filterMap_cons, hn]
  | some n => simp [attributedNames, List.filterMap_cons, hn, eq_comm]

/-- Folding the aggregation step accumulates, per attributed branch name,
exactly the sum of that name's scores on top of the accumulator. -/
theorem scLookup_foldl_scStep (hits : List (SearchDoc × ℚ)) (acc : List (String × ℚ))
    (m : String) :
    scLookup (hits.foldl scStep acc) m =
      if m ∈ attributedNames hits ∨ (scLookup acc m).isSome = true
      then some ((scLookup acc m).getD 0 + sumScores hits m)
      else none := by
  induction hits generalizing acc with
  | nil =>
      cases h : scLookup acc m <;>
        simp [attributedNames, sumScores, h]
  | cons hit hits ih =>
      rw [List.foldl_cons, ih, scStep_eq]
      cases hn : hitName hit with
      | none =>
          simp [mem_attributedNames_cons, hn, sumScores]
      | some n =>
          by_cases hm : m = n
          · subst hm
            rw [scLookup_addScore_self]
            simp [mem_attributedNames_cons, hn, sumScores, add_assoc]
          · rw [scLookup_addScore_ne acc n m hit.2 hm]
            simp [mem_attributedNames_cons, hn, sumScores, hm, Ne.symm hm]

/-- The branch-score dictionary holds, for each attributed name, the sum of
that name's scores, and nothing else. -/
theorem branchScores_lookup (hits : List (SearchDoc × ℚ)) (m : String) :
    scLookup (branchScores hits) m =
      if m ∈ attributedNames hits then some (sumScores hits m) else none := by
  have h := scLookup_foldl_scStep hits [] m
  simpa [branchScores, scLookup] using h

/-- The branch-score dictionary has distinct keys. -/
theorem foldl_scStep_nodup (hits : List (SearchDoc × ℚ)) (acc : List (String × ℚ))
    (h : (acc.map Prod.fst).Nodup) :
    (((hits.foldl scStep acc)).map Prod.fst).Nodup := by
  induction hits generalizing acc with
  | nil => exact h
  | cons hit hits ih =>
      rw [List.foldl_cons]
      apply ih
      rw [scStep_eq]
      cases hn : hitName hit with
      | none => exact h
      | some n => exact addScore_nodup acc n hit.2 h

/-- The running maximum of Python `max` stays in the candidate pool. -/
theorem foldl_maxStep_mem (xs : List (String × ℚ)) (b : String × ℚ) :
    xs.foldl maxStep b = b ∨ xs.foldl maxStep b ∈ xs := by
  induction xs generalizing b with
  | nil => exact Or.inl rfl
  | cons x xs ih =>
      rw [List.foldl_cons]
      rcases ih (maxStep b x) with h | h
      · rw [h]
        unfold maxStep
        by_cases hc : x.2 > b.2
        · rw [if_pos hc]
          exact Or.inr (List.mem_cons_self _ _)
        · rw [if_neg hc]
          exact Or.inl rfl
      · exact Or.inr (List.mem_cons_of_mem _ h)

/-- The running maximum of Python `max` dominates the seed and the pool. -/
theorem foldl_maxStep_ge (xs : List (String × ℚ)) (b : String × ℚ) :
    b.2 ≤ (xs.foldl maxStep b).2 ∧ ∀ p ∈ xs, p.2 ≤ (xs.foldl maxStep b).2 := by
  induction xs generalizing b with
  | nil => exact ⟨le_refl _, by simp⟩
  | cons x xs ih =>
      rw [List.foldl_cons]
      obtain ⟨h1, h2⟩ := ih (maxStep b x)
      have hb : b.2 ≤ (maxStep b x).2 := by
        unfold maxStep
        by_cases hc : x.2 > b.2
        · rw [if_pos hc]
          exact le_of_lt hc
        · rw [if_neg hc]
      have hx : x.2 ≤ (maxStep b x).2 := by
        unfold maxStep
        by_cases hc : x.2 > b.2
        · rw [if_pos hc]
        · rw [if_neg hc]
          exact not_lt.mp hc
      refine ⟨le_trans hb h1, ?_⟩
      intro p hp
      rcases List.mem_cons.mp hp with heq | hp
      · subst heq
        exact le_trans hx h1
      · exact h2 p hp

/-- Python `max(items, key=lambda x: x[1])` returns a member whose score
dominates every member's score. -/
theorem maxBySnd_spec (sc : List (String × ℚ)) (best : String × ℚ)
    (h : maxBySnd sc = some best) : best ∈ sc ∧ ∀ p ∈ sc, p.2 ≤ best.2 := by
  cases sc with
  | nil => cases h
  | cons x xs =>
      have hbest : xs.foldl maxStep x = best := by
        simpa [maxBySnd] using h
      subst hbest
      constructor
      · rcases foldl_maxStep_mem xs x with h | h
        · rw [h]
          exact List.mem_cons_self _ _
        · exact List.mem_cons_of_mem _ h
      · intro p hp
        obtain ⟨h1, h2⟩ := foldl_maxStep_ge xs x
        rcases List.mem_cons.mp hp with heq | hp
        · subst heq
          exact h1
        · exact h2 p hp

/-- C5: with two or more branches and a returned scored hit list, branch
selection aggregates hit scores by summing per (truthy) branch name and
selects the branch whose aggregate score is strictly highest, provided a
branch of that name exists (first such branch by `find?`). -/
theorem branch_score_aggregation_selects_max (t : Tree) (rag : RagDb) (query : String)
    (hits : List (SearchDoc × ℚ)) (B b0 b1 : BranchData) (rest : List BranchData)
    (hb : t.branches = b0 :: b1 :: rest)
    (hok : rag.similarity_search_with_score query 5 = .ok hits)
    (hmem : B.name ∈ attributedNames hits)
    (hmax : ∀ n ∈ attributedNames hits, n ≠ B.name →
      sumScores hits n < sumScores hits B.name)
    (hfind : t.branches.find? (fun b => b.name == B.name) = some B) :
    t.find_best_branch rag query = some B := by
  have hlook : scLookup (branchScores hits) B.name = some (sumScores hits B.name) := by
    rw [branchScores_lookup]
    simp [hmem]
  have hmemB : (B.name, sumScores hits B.name) ∈ branchScores hits :=
    scLookup_mem _ _ _ hlook
  obtain ⟨x, xs, hsc⟩ : ∃ x xs, branchScores hits = x :: xs := by
    cases hsc : branchScores hits with
    | nil =>
        rw [hsc] at hmemB
        cases hmemB
    | cons x xs => exact ⟨x, xs, rfl⟩
  obtain ⟨best, hmaxEq⟩ : ∃ best, maxBySnd (branchScores hits) = some best :=
    ⟨xs.foldl maxStep x, by rw [hsc]; rfl⟩
  obtain ⟨hbmem, hble⟩ := maxBySnd_spec (branchScores hits) best hmaxEq
  have hbval : scLookup (branchScores hits) best.1 = some best.2 :=
    mem_scLookup_of_nodup _ _ (foldl_scStep_nodup hits [] (by simp)) hbmem
  have hbattr : best.1 ∈ attributedNames hits ∧ best.2 = sumScores hits best.1 := by
    rw [branchScores_lookup] at hbval
    by_cases hc : best.1 ∈ attributedNames hits
    · rw [if_pos hc] at hbval
      exact ⟨hc, (Option.some.inj hbval).symm⟩
    · rw [if_neg hc] at hbval
      cases hbval
  have hname : best.1 = B.name := by
    by_contra hne
    have h1 : sumScores hits best.1 < sumScores hits B.name :=
      hmax best.1 hbattr.1 hne
    have h2 : sumScores hits B.name ≤ best.2 := hble _ hmemB
    rw [hbattr.2] at h2
    exact absurd (lt_of_le_of_lt h2 h1) (lt_irrefl _)
  rw [hb] at hfind
  simp [Tree.find_best_branch, hb, hok, hmaxEq, hname, hfind]

/-- The hit list of the spec's concrete aggregation scenario: `leafX` and
`leafY` score `0.9` and `0.3` under branch `crypto`, `leafZ` scores `0.5`
under branch `social`. -/
def hitsC5 : List (SearchDoc × ℚ) :=
  [(⟨some "crypto", some "leafX"⟩, 9 / 10), (⟨some "crypto", some "leafY"⟩, 3 / 10),
   (⟨some "social", some "leafZ"⟩, 1 / 2)]

/-- A retrieval store returning exactly the `hitsC5` scored hits. -/
def ragC5 : RagDb :=
  ⟨fun _ _ => .ok hitsC5, fun _ _ _ => .error "unused", fun _ _ => .ok ()⟩

/-- The `crypto` branch of the concrete aggregation scenario. -/
def brCrypto : BranchData := .mk "crypto" "" none "" [] []

/-- The `social` branch of the concrete aggregation scenario. -/
def brSocial : BranchData := .mk "social" "" none "" [] []

/-- A two-branch tree over `social` and `crypto`. -/
def treeC5 : Tree :=
  { name := "T", branches := [brSocial, brCrypto], execution_history := [] }

/-- Witness for `branch_score_aggregation_selects_max`: with scores
`0.9 + 0.3 = 1.2` for `crypto` against `0.5` for `social`, the `crypto`
branch is selected. -/
theorem branch_score_aggregation_selects_max_witness :
    sumScores hitsC5 "crypto" = 9 / 10 + 3 / 10 ∧
    sumScores hitsC5 "social" = 1 / 2 ∧
    treeC5.find_best_branch ragC5 "q" = some brCrypto := by
  have ecrypto : sumScores hitsC5 "crypto" = 9 / 10 + (3 / 10 + (0 + 0)) := rfl
  have esocial : sumScores hitsC5 "social" = 0 + (0 + (1 / 2 + 0)) := rfl
  refine ⟨?_, ?_, ?_⟩
  · rw [ecrypto]
    norm_num
  · rw [esocial]
    norm_num
  · refine branch_score_aggregation_selects_max treeC5 ragC5 "q" hitsC5 brCrypto
      brSocial brCrypto [] rfl rfl ?_ ?_ rfl
    · decide
    · intro n hn hne
      have hn' : n = "crypto" ∨ n = "crypto" ∨ n = "social" := by
        simpa [attributedNames, hitsC5, hitName, strTruthy, List.filterMap_cons] using hn
      rcases hn' with rfl | rfl | rfl
      · exact absurd rfl hne
      · exact absurd rfl hne
      · show sumScores hitsC5 "social" < sumScores hitsC5 brCrypto.name
        have ec : sumScores hitsC5 brCrypto.name = 9 / 10 + (3 / 10 + (0 + 0)) := rfl
        rw [esocial, ec]
        norm_num

end OpenAspen
